import Mathlib

/-!
Verification of the fuzz-and-classify-and-patch pipeline of the
embedded-firmware security-testing repository.

The Python sources are shallowly embedded:
* file contents are `List Char` (the decoded text, newlines normalized to
  a line feed as Python's text mode does);
* the filesystem visible to one script invocation is an association list
  from path to content;
* functions that write files return the ordered list of (path, content)
  write events they perform, so ordering properties (backup before
  overwrite) are statable;
* `str.replace` is embedded as `pyReplace`, reproducing CPython's
  left-to-right non-overlapping scan, including its behaviour on an empty
  pattern (the replacement is inserted at every character boundary);
* `str.lower` is embedded as ASCII case folding (every keyword and marker
  in the scripts is ASCII) and `str.strip` as removal of leading and
  trailing ASCII whitespace.
-/

set_option autoImplicit false

/-- ASCII whitespace, the characters Python's `str.strip` removes from the
artifact lines handled here. -/
def pyIsSpace (c : Char) : Bool :=
  c == ' ' || c == '\t' || c == '\n' || c == '\r' || c == '\x0b' || c == '\x0c'

/-- Python `str.strip`: drop leading and trailing whitespace. -/
def pystrip (s : List Char) : List Char :=
  ((s.dropWhile pyIsSpace).reverse.dropWhile pyIsSpace).reverse

/-- Python `str.lower`, ASCII case folding. -/
def lowerL (s : List Char) : List Char :=
  s.map Char.toLower

/-- Helper for `readlines`: `acc` holds the current line reversed. -/
def readlinesAux : List Char → List Char → List (List Char)
  | acc, [] => if acc = [] then [] else [acc.reverse]
  | acc, c :: rest =>
    if c = '\n' then (c :: acc).reverse :: readlinesAux [] rest
    else readlinesAux (c :: acc) rest

/-- Python `file.readlines()`: split after every newline, keeping the
newline at the end of each line; a final unterminated line is kept too. -/
def readlines (s : List Char) : List (List Char) :=
  readlinesAux [] s

/-- `os.path.basename`: the part of the path after the last slash. -/
def basename (p : String) : String :=
  String.mk ((p.data.reverse.takeWhile (fun c => c != '/')).reverse)

/-- The filesystem seen by one script run: path, content pairs. -/
abbrev FS := List (String × List Char)

/-- Reading a file: `none` models `open` raising on a missing path. -/
def fsRead (fs : FS) (p : String) : Option (List Char) :=
  (fs.find? (fun e => e.1 == p)).map (fun e => e.2)

/-- Writing a file creates it or truncates and rewrites it. -/
def fsWrite (fs : FS) (p : String) (c : List Char) : FS :=
  if fs.any (fun e => e.1 == p) then
    fs.map (fun e => if e.1 == p then (p, c) else e)
  else fs ++ [(p, c)]

/-- Replay a list of write events against a filesystem. -/
def applyWrites (fs : FS) (ws : List (String × List Char)) : FS :=
  ws.foldl (fun a w => fsWrite a w.1 w.2) fs

/-- CPython `str.replace` with an empty pattern: the replacement is
inserted before and after every character of the subject. -/
def interleave (s new : List Char) : List Char :=
  match s with
  | [] => new
  | c :: rest => new ++ c :: interleave rest new

/-- CPython `str.replace` with the non-empty pattern `o :: os`:
left-to-right scan, replacing each non-overlapping occurrence. -/
def pyReplaceNE (o : Char) (os new : List Char) : List Char → List Char
  | [] => []
  | c :: rest =>
    if (o :: os).isPrefixOf (c :: rest) then
      new ++ pyReplaceNE o os new (rest.drop os.length)
    else
      c :: pyReplaceNE o os new rest
termination_by s => s.length
decreasing_by
  · simp only [List.length_drop, List.length_cons]
    omega
  · simp

/-- CPython `str.replace old new` (no count argument). -/
def pyReplace (s old new : List Char) : List Char :=
  match old with
  | [] => interleave s new
  | o :: os => pyReplaceNE o os new s

/-- One discovered vulnerability record of `analyze_results.py`
(`parse_file_for_threats` builds one dict per keyword match). -/
structure EvidenceItem where
  file : String
  line : Nat
  keyword : List Char
  threat : String
  cwe : String
  line_text : List Char
deriving DecidableEq, Repr

/-- The `THREAT_KEYWORDS` table of `analyze_results.py`, in its insertion
order: keyword, threat category, CWE string. -/
def THREAT_KEYWORDS : List (List Char × String × String) :=
  [ (("overflow").toList, "Buffer Overflow", "CWE-120: Classic Buffer Overflow"),
    (("stack overflow").toList, "Buffer Overflow", "CWE-120: Classic Buffer Overflow"),
    (("hard fault").toList, "Potential Crash or Memory Fault", "CWE-730: Null Pointer or System Crash"),
    (("race condition").toList, "Concurrency Issue", "CWE-362: Race Condition"),
    (("assert").toList, "Assertion Failure", "N/A"),
    (("dos").toList, "Denial of Service", "CWE-400: Uncontrolled Resource Consumption"),
    (("missed deadline").toList, "Real-Time Violation", "CWE-400: Uncontrolled Resource Consumption"),
    (("malloc failed").toList, "Memory Allocation Failure", "CWE-401: Memory Leak or Resource Exhaustion"),
    (("error").toList, "Generic Error", "N/A") ]

/-- The inner loop of `parse_file_for_threats`: all items emitted for one
line (1-indexed line number `n`). -/
def scan_line (fname : String) (n : Nat) (l : List Char) : List EvidenceItem :=
  THREAT_KEYWORDS.filterMap (fun e =>
    if e.1 <:+: lowerL l then
      some { file := fname, line := n, keyword := e.1,
             threat := e.2.1, cwe := e.2.2, line_text := pystrip l }
    else none)

/-- The outer loop of `parse_file_for_threats`: scan the lines, numbering
them from `n` upward. -/
def scan_lines (fname : String) : Nat → List (List Char) → List EvidenceItem
  | _, [] => []
  | n, l :: rest => scan_line fname n l ++ scan_lines fname (n + 1) rest

/-- `parse_file_for_threats` of `analyze_results.py`: a missing file gives
the empty list; otherwise every line is scanned against the taxonomy. -/
def parse_file_for_threats (fs : FS) (filepath : String) : List EvidenceItem :=
  match fsRead fs filepath with
  | none => []
  | some content => scan_lines (basename filepath) 1 (readlines content)

/-- File-name filter of `analyze_fuzz_logs`. -/
def fuzz_log_selected (name : String) : Bool :=
  name.startsWith ("fuzz_crashlog_") && name.endsWith (".txt")

/-- File-name filter of `analyze_static_analysis_logs`. -/
def static_log_selected (name : String) : Bool :=
  name.endsWith (".txt") || name.endsWith (".log")

/-- A directory is `none` when absent; otherwise its entries (file name,
content) in listing order. -/
abbrev DirListing := Option (List (String × List Char))

/-- `analyze_fuzz_logs` of `analyze_results.py`: scan each selected file
of `test_artifacts/`; an absent directory contributes nothing. -/
def analyze_fuzz_logs (d : DirListing) : List EvidenceItem :=
  match d with
  | none => []
  | some entries =>
    (entries.map (fun e =>
      if fuzz_log_selected e.1 then
        scan_lines (basename (("test_artifacts/") ++ e.1)) 1 (readlines e.2)
      else [])).flatten

/-- `analyze_static_analysis_logs` of `analyze_results.py`. -/
def analyze_static_analysis_logs (d : DirListing) : List EvidenceItem :=
  match d with
  | none => []
  | some entries =>
    (entries.map (fun e =>
      if static_log_selected e.1 then
        scan_lines (basename (("test_artifacts/static_analysis/") ++ e.1)) 1 (readlines e.2)
      else [])).flatten

/-- `main` of `analyze_results.py`: collect fuzz evidence then static
evidence; write `analysis_report.json` (`some results`) only when the
merged list is non-empty, otherwise return normally with no file
(`none`), the clean state. -/
def analyze_main (fuzzDir staticDir : DirListing) : Option (List EvidenceItem) :=
  let results := analyze_fuzz_logs fuzzDir ++ analyze_static_analysis_logs staticDir
  if results = [] then none else some results

/-- File-name filter of `clear_old_logs` in `fuzz_test.py`. -/
def fuzz_artifact_name (name : String) : Bool :=
  name.startsWith ("fuzz_crashlog_") ||
  name.startsWith ("fuzz_freezelog_") ||
  name.startsWith ("fuzz_input_")

/-- `clear_old_logs` of `fuzz_test.py`: remove old fuzz inputs and logs;
an absent directory is only reported, never created or an error. -/
def clear_old_logs (d : DirListing) : DirListing :=
  match d with
  | none => none
  | some entries => some (entries.filter (fun e => !(fuzz_artifact_name e.1)))

/-- The deadline-violation marker `fuzz_once` searches for. -/
def deadlineMarker : List Char := ("missed deadline").toList

/-- Path of the fuzz input file of iteration `it`. -/
def inputName (it : Nat) : String :=
  ("test_artifacts/fuzz_input_") ++ toString it ++ (".bin")

/-- Path of the anomaly log of iteration `it`. -/
def logName (it : Nat) : String :=
  ("test_artifacts/fuzz_crashlog_") ++ toString it ++ (".txt")

/-- Content of the anomaly log written by `fuzz_once`: the captured
stdout and stderr, verbatim, under fixed headers. -/
def logContent (out err : List Char) : List Char :=
  ("=== STDOUT ===\n").toList ++ out ++ ("\n=== STDERR ===\n").toList ++ err

/-- The file writes performed by one `fuzz_once` iteration of
`fuzz_test.py` (deadline-checking variant), given the captured output:
the input payload is always persisted first; the anomaly log is written
exactly when the lowercased stdout or stderr contains the marker. -/
def fuzz_once_writes (iteration : Nat) (fuzz_data out err : List Char) :
    List (String × List Char) :=
  (inputName iteration, fuzz_data) ::
  (if deadlineMarker <:+: lowerL out ∨ deadlineMarker <:+: lowerL err then
    [(logName iteration, logContent out err)]
  else [])

/-- `read_code_snippet` of `llm_refine.py`: `none` for a missing file,
otherwise the window of `context` lines around 1-indexed `line_num`,
clipped to the file (Python slice `lines[start:stop]`). -/
def read_code_snippet (fs : FS) (filepath : String) (line_num context : Nat) :
    Option (List (List Char)) :=
  match fsRead fs filepath with
  | none => none
  | some content =>
    let lines := readlines content
    let start := line_num - context - 1
    let stop := min lines.length (line_num + context)
    some ((lines.take stop).drop start)

/-- Outcome of `apply_patch_to_file`: the ordered file writes it performs
and whether it surfaced the mismatch warning. -/
structure PatchOutcome where
  writes : List (String × List Char)
  warned : Bool
deriving DecidableEq, Repr

/-- `apply_patch_to_file` of `llm_refine.py`: read the whole file, replace
the concatenated old snippet by the new snippet; if the content is
unchanged, warn and write nothing; otherwise write the backup of the
original content and then overwrite the target, in that order. -/
def apply_patch_to_file (fs : FS) (file_path : String)
    (old_snippet : List (List Char)) (new_snippet : List Char) :
    Option PatchOutcome :=
  match fsRead fs file_path with
  | none => none
  | some original_content =>
    let patched := pyReplace original_content old_snippet.flatten new_snippet
    if patched = original_content then
      some { writes := [], warned := true }
    else
      some { writes := [(file_path ++ (".bak"), original_content),
                        (file_path, patched)],
             warned := false }

/-- Concrete filesystem for exercising the mismatch path of the patcher. -/
def fsC1 : FS := [(("main.c"), ("foo ();\n").toList)]

/-- Concrete filesystem for exercising the backup-then-overwrite path. -/
def fsC2 : FS := [(("f.c"), ['a', 'b'])]

/-- The outcome of patching `fsC2`: backup first, then the overwrite. -/
def oC2 : PatchOutcome :=
  { writes := [(("f.c.bak"), ['a', 'b']), (("f.c"), ['x', 'y', 'b'])], warned := false }

/-- Concrete filesystem holding one artifact line that matches a keyword. -/
def fsC4 : FS := [(("a.txt"), ("stack overflow\n").toList)]

/-- One taxonomy rule, used to instantiate the per-pair count statement. -/
def ruleC4 : List Char × String × String :=
  (("stack overflow").toList, "Buffer Overflow", "CWE-120: Classic Buffer Overflow")

/-- Concrete filesystem whose single line carries surrounding whitespace. -/
def fsC6 : FS := [(("log.txt"), ("  error \n").toList)]

/-- The one evidence item the scanner emits for `fsC6`. -/
def itemC6 : EvidenceItem :=
  { file := ("log.txt"), line := 1, keyword := ("error").toList,
    threat := "Generic Error", cwe := "N/A", line_text := ("error").toList }

/-- Concrete filesystem for the out-of-range snippet scenario. -/
def fsC9 : FS := [(("f.c"), ['a', 'b'])]

/-- Concrete filesystem whose content holds the pattern twice. -/
def fsC10 : FS := [(("m.c"), ("XabYabZ").toList)]

lemma pyReplaceNE_nil (o : Char) (os new : List Char) : pyReplaceNE o os new [] = [] := by
  simp [pyReplaceNE]

lemma pyReplaceNE_cons (o : Char) (os new : List Char) (c : Char) (rest : List Char) :
    pyReplaceNE o os new (c :: rest) =
      if (o :: os).isPrefixOf (c :: rest) then
        new ++ pyReplaceNE o os new (rest.drop os.length)
      else
        c :: pyReplaceNE o os new rest := by
  rw [pyReplaceNE]

lemma pyReplaceNE_of_no_occurrence (o : Char) (os new : List Char) (s : List Char)
    (h : ¬ (o :: os) <:+: s) : pyReplaceNE o os new s = s := by
  induction s with
  | nil => simp [pyReplaceNE]
  | cons c rest ih =>
    rw [pyReplaceNE_cons, if_neg]
    · rw [ih (fun hin => h ( List.infix_cons hin))]
    · intro hp
      exact h ( List.IsPrefix.isInfix ( List.isPrefixOf_iff_prefix.mp hp))

lemma pyReplaceNE_skip (o : Char) (os new : List Char) :
    ∀ (p rest : List Char),
      (∀ i, i < p.length → ¬ (o :: os) <+: ((p ++ (o :: os) ++ rest).drop i)) →
      pyReplaceNE o os new (p ++ (o :: os) ++ rest) = p ++ new ++ pyReplaceNE o os new rest := by
  intro p
  induction p with
  | nil =>
    intro rest _
    show pyReplaceNE o os new (o :: (os ++ rest)) = new ++ pyReplaceNE o os new rest
    rw [pyReplaceNE_cons, if_pos]
    · rw [List.drop_left]
    · exact List.isPrefixOf_iff_prefix.mpr ( List.prefix_append (o :: os) rest)
  | cons a p' ih =>
    intro rest h
    have h0 : ¬ (o :: os) <+: ((a :: p') ++ (o :: os) ++ rest) := by
      simpa using h 0 (by simp)
    have hrec := ih rest (fun i hi => by
      have hstep := h (i + 1) (by simp; omega)
      simpa [List.drop_succ_cons] using hstep)
    show pyReplaceNE o os new (a :: (p' ++ (o :: os) ++ rest))
        = a :: (p' ++ new ++ pyReplaceNE o os new rest)
    rw [pyReplaceNE_cons, if_neg]
    · rw [hrec]
    · intro hp
      exact h0 ( List.isPrefixOf_iff_prefix.mp hp)

lemma interleave_length (s new : List Char) :
    (interleave s new).length = s.length + new.length * (s.length + 1) := by
  induction s with
  | nil => simp [interleave]
  | cons c rest ih =>
    simp [interleave, ih]
    ring

lemma apply_patch_eq_unchanged (fs : FS) (path : String) (old : List (List Char))
    (new content : List Char) (h : fsRead fs path = some content)
    (hp : pyReplace content old.flatten new = content) :
    apply_patch_to_file fs path old new = some { writes := [], warned := true } := by
  simp [apply_patch_to_file, h, hp]

lemma apply_patch_eq_changed (fs : FS) (path : String) (old : List (List Char))
    (new content : List Char) (h : fsRead fs path = some content)
    (hp : pyReplace content old.flatten new ≠ content) :
    apply_patch_to_file fs path old new
      = some { writes := [(path ++ (".bak"), content),
                          (path, pyReplace content old.flatten new)],
               warned := false } := by
  simp [apply_patch_to_file, h, hp]

lemma bak_suffix_ne (p : String) : p ++ (".bak") ≠ p := by
  intro h
  have hl := congrArg String.length h
  rw [String.length_append] at hl
  have h4 : (".bak" : String).length = 4 := rfl
  omega

lemma rep_ne (p q r old new : List Char) (h : new ≠ old) :
    p ++ new ++ (q ++ new ++ r) ≠ p ++ old ++ (q ++ old ++ r) := by
  intro he
  simp only [List.append_assoc] at he
  have h2 := List.append_cancel_left he
  have hlen : new.length = old.length := by
    have hc := congrArg List.length h2
    simp [List.length_append] at hc
    omega
  exact h (List.append_inj h2 hlen).1

/-- C1: for a target file whose current content does not contain the
concatenated original snippet verbatim, `apply_patch_to_file` performs no
file write at all (so the content stays byte-identical and no backup file
appears) and surfaces the warning. -/
theorem apply_patch_mismatch_no_mutation
    (fs : FS) (path : String) (old_snippet : List (List Char))
    (new_snippet content : List Char)
    (hread : fsRead fs path = some content)
    (hmiss : ¬ old_snippet.flatten <:+: content) :
    apply_patch_to_file fs path old_snippet new_snippet
      = some { writes := [], warned := true } ∧
    applyWrites fs [] = fs := by
  refine ⟨?_, rfl⟩
  apply apply_patch_eq_unchanged fs path old_snippet new_snippet content hread
  cases hj : old_snippet.flatten with
  | nil =>
    rw [hj] at hmiss
    exact absurd List.nil_infix hmiss
  | cons o os =>
    rw [hj] at hmiss
    exact pyReplaceNE_of_no_occurrence o os new_snippet content hmiss

theorem apply_patch_mismatch_no_mutation_witness :
    fsRead fsC1 ("main.c") = some (("foo ();\n").toList) ∧
    ¬ (([("foo();\n").toList] : List (List Char)).flatten <:+: ("foo ();\n").toList) ∧
    (apply_patch_to_file fsC1 ("main.c") [("foo();\n").toList] (("x").toList)
        = some { writes := [], warned := true } ∧
      applyWrites fsC1 [] = fsC1) :=
  ⟨by decide, by decide,
    apply_patch_mismatch_no_mutation fsC1 ("main.c") [("foo();\n").toList]
      (("x").toList) (("foo ();\n").toList) (by decide) (by decide)⟩

/-- C2: whenever `apply_patch_to_file` writes the target file, an earlier
write in its write sequence created the backup holding the complete
pre-patch content; the target is never written without the backup
written first. -/
theorem backup_written_before_overwrite
    (fs : FS) (path : String) (old_snippet : List (List Char))
    (new_snippet content : List Char) (o : PatchOutcome)
    (hread : fsRead fs path = some content)
    (happ : apply_patch_to_file fs path old_snippet new_snippet = some o) :
    ∀ j (hj : j < o.writes.length), (o.writes.get ⟨j, hj⟩).1 = path →
      ∃ i, ∃ hi : i < o.writes.length, i < j ∧
        o.writes.get ⟨i, hi⟩ = (path ++ (".bak"), content) := by
  by_cases hch : pyReplace content old_snippet.flatten new_snippet = content
  · have he := apply_patch_eq_unchanged fs path old_snippet new_snippet content hread hch
    obtain rfl := Option.some.inj (he.symm.trans happ)
    intro j hj
    simp at hj
  · have he := apply_patch_eq_changed fs path old_snippet new_snippet content hread hch
    obtain rfl := Option.some.inj (he.symm.trans happ)
    intro j hj hname
    rcases j with _ | _ | j
    · exact absurd hname (bak_suffix_ne path)
    · exact ⟨0, by simp, by omega, rfl⟩
    · exfalso
      simp only [List.length_cons, List.length_nil] at hj
      omega

lemma apply_patch_fsC2_eq :
    apply_patch_to_file fsC2 ("f.c") [['a']] ['x', 'y'] = some oC2 := by
  have h2 : pyReplaceNE 'a' [] ['x', 'y'] ['b'] = ['b'] :=
    pyReplaceNE_of_no_occurrence 'a' [] ['x', 'y'] ['b'] (by decide)
  have hs := pyReplaceNE_skip 'a' [] ['x', 'y'] [] ['b'] (fun i hi => absurd hi (by simp))
  rw [h2] at hs
  have h1 : pyReplace ['a', 'b'] ([['a']] : List (List Char)).flatten ['x', 'y']
      = ['x', 'y', 'b'] := hs
  have he := apply_patch_eq_changed fsC2 ("f.c") [['a']] ['x', 'y'] ['a', 'b']
    (by decide) (by rw [h1]; decide)
  rw [he, h1]
  decide

theorem backup_written_before_overwrite_witness :
    fsRead fsC2 ("f.c") = some ['a', 'b'] ∧
    apply_patch_to_file fsC2 ("f.c") [['a']] ['x', 'y'] = some oC2 ∧
    (∀ j (hj : j < oC2.writes.length), (oC2.writes.get ⟨j, hj⟩).1 = ("f.c") →
      ∃ i, ∃ hi : i < oC2.writes.length, i < j ∧
        oC2.writes.get ⟨i, hi⟩ = (("f.c") ++ (".bak"), ['a', 'b'])) :=
  ⟨by decide, apply_patch_fsC2_eq,
    backup_written_before_overwrite fsC2 ("f.c") [['a']] ['x', 'y'] ['a', 'b'] oC2
      (by decide) apply_patch_fsC2_eq⟩

/-- C9: when the evidence line number exceeds the file's line count by at
least 6 (context 5), `read_code_snippet` returns the empty snippet (not
the `none` marker of a missing file), and patching with that empty
snippet rewrites the file with the suggested block inserted at every
character boundary of the original content. -/
theorem empty_snippet_inserts_at_every_boundary
    (fs : FS) (path : String) (content new : List Char) (line_num : Nat)
    (hread : fsRead fs path = some content)
    (hline : (readlines content).length + 6 ≤ line_num)
    (hnew : new ≠ []) :
    read_code_snippet fs path line_num 5 = some [] ∧
    apply_patch_to_file fs path [] new
      = some { writes := [(path ++ (".bak"), content), (path, interleave content new)],
               warned := false } := by
  constructor
  · simp only [read_code_snippet, hread]
    rw [Option.some.injEq]
    apply List.drop_eq_nil_of_le
    have ht : (List.take (min (readlines content).length (line_num + 5))
        (readlines content)).length ≤ (readlines content).length := by
      rw [List.length_take]
      exact min_le_right _ _
    omega
  · have hrep : pyReplace content ([] : List (List Char)).flatten new
        = interleave content new := rfl
    have hne : interleave content new ≠ content := by
      intro hc
      have hl := congrArg List.length hc
      rw [interleave_length] at hl
      have hz : new.length * (content.length + 1) = 0 := by omega
      rcases Nat.mul_eq_zero.mp hz with h0 | h0
      · exact hnew (List.length_eq_zero.mp h0)
      · omega
    have he := apply_patch_eq_changed fs path [] new content hread (by rw [hrep]; exact hne)
    rw [he, hrep]

theorem empty_snippet_inserts_at_every_boundary_witness :
    fsRead fsC9 ("f.c") = some ['a', 'b'] ∧
    (readlines ['a', 'b']).length + 6 ≤ 8 ∧
    (['Z'] : List Char) ≠ [] ∧
    (read_code_snippet fsC9 ("f.c") 8 5 = some [] ∧
      apply_patch_to_file fsC9 ("f.c") [] ['Z']
        = some { writes := [(("f.c") ++ (".bak"), ['a', 'b']),
                            (("f.c"), interleave ['a', 'b'] ['Z'])],
                 warned := false }) :=
  ⟨by decide, by decide, by decide,
    empty_snippet_inserts_at_every_boundary fsC9 ("f.c") ['a', 'b'] ['Z'] 8
      (by decide) (by decide) (by decide)⟩

/-- C10: when the original snippet's text occurs at two separated places
in the file content, `apply_patch_to_file` replaces both occurrences with
the suggested block, not only one of them. -/
theorem apply_patch_replaces_every_occurrence
    (fs : FS) (path : String) (p q r os new : List Char) (o : Char)
    (hread : fsRead fs path = some (p ++ (o :: os) ++ (q ++ (o :: os) ++ r)))
    (hp : ∀ i, i < p.length →
      ¬ (o :: os) <+: ((p ++ (o :: os) ++ (q ++ (o :: os) ++ r)).drop i))
    (hq : ∀ i, i < q.length → ¬ (o :: os) <+: ((q ++ (o :: os) ++ r).drop i))
    (hr : ¬ (o :: os) <:+: r)
    (hnew : new ≠ o :: os) :
    apply_patch_to_file fs path [o :: os] new
      = some { writes := [(path ++ (".bak"), p ++ (o :: os) ++ (q ++ (o :: os) ++ r)),
                          (path, p ++ new ++ (q ++ new ++ r))],
               warned := false } := by
  have hfl : ([o :: os] : List (List Char)).flatten = o :: os := by simp
  have hrep : pyReplace (p ++ (o :: os) ++ (q ++ (o :: os) ++ r))
      (([o :: os] : List (List Char)).flatten) new = p ++ new ++ (q ++ new ++ r) := by
    rw [hfl]
    show pyReplaceNE o os new (p ++ (o :: os) ++ (q ++ (o :: os) ++ r)) = _
    rw [pyReplaceNE_skip o os new p (q ++ (o :: os) ++ r) hp,
        pyReplaceNE_skip o os new q r hq,
        pyReplaceNE_of_no_occurrence o os new r hr]
  have hne := rep_ne p q r (o :: os) new hnew
  have he := apply_patch_eq_changed fs path [o :: os] new
    (p ++ (o :: os) ++ (q ++ (o :: os) ++ r)) hread (by rw [hrep]; exact hne)
  rw [he, hrep]

theorem apply_patch_replaces_every_occurrence_witness :
    fsRead fsC10 ("m.c") = some (['X'] ++ ('a' :: ['b']) ++ (['Y'] ++ ('a' :: ['b']) ++ ['Z'])) ∧
    (∀ i, i < (['X'] : List Char).length →
      ¬ ('a' :: ['b']) <+: ((['X'] ++ ('a' :: ['b']) ++ (['Y'] ++ ('a' :: ['b']) ++ ['Z'])).drop i)) ∧
    (∀ i, i < (['Y'] : List Char).length →
      ¬ ('a' :: ['b']) <+: ((['Y'] ++ ('a' :: ['b']) ++ ['Z']).drop i)) ∧
    ¬ ('a' :: ['b']) <:+: ['Z'] ∧
    (['c', 'd'] : List Char) ≠ 'a' :: ['b'] ∧
    apply_patch_to_file fsC10 ("m.c") ['a' :: ['b']] ['c', 'd']
      = some { writes := [(("m.c") ++ (".bak"), ['X'] ++ ('a' :: ['b']) ++ (['Y'] ++ ('a' :: ['b']) ++ ['Z'])),
                          (("m.c"), ['X'] ++ ['c', 'd'] ++ (['Y'] ++ ['c', 'd'] ++ ['Z']))],
               warned := false } :=
  ⟨by decide, by decide, by decide, by decide, by decide,
    apply_patch_replaces_every_occurrence fsC10 ("m.c") ['X'] ['Y'] ['Z'] ['b'] ['c', 'd'] 'a'
      (by decide) (by decide) (by decide) (by decide) (by decide)⟩

lemma mem_scan_line {fname : String} {n : Nat} {l : List Char} {it : EvidenceItem} :
    it ∈ scan_line fname n l ↔
      ∃ e, e ∈ THREAT_KEYWORDS ∧ e.1 <:+: lowerL l ∧
        it = { file := fname, line := n, keyword := e.1,
               threat := e.2.1, cwe := e.2.2, line_text := pystrip l } := by
  constructor
  · intro h
    obtain ⟨e, he, hf⟩ := List.mem_filterMap.mp h
    by_cases hc : e.1 <:+: lowerL l
    · rw [if_pos hc] at hf
      exact ⟨e, he, hc, (Option.some.inj hf).symm⟩
    · rw [if_neg hc] at hf
      cases hf
  · rintro ⟨e, he, hc, rfl⟩
    exact List.mem_filterMap.mpr ⟨e, he, by rw [if_pos hc]⟩

lemma scan_line_line {fname : String} {n : Nat} {l : List Char} {it : EvidenceItem}
    (h : it ∈ scan_line fname n l) : it.line = n := by
  obtain ⟨e, _, _, rfl⟩ := mem_scan_line.mp h
  rfl

lemma countP_scan_line_keyword (fname : String) (n : Nat) (l kw : List Char) :
    (scan_line fname n l).countP (fun it => it.keyword == kw)
      = if kw <:+: lowerL l then
          THREAT_KEYWORDS.countP (fun e => e.1 == kw)
        else 0 := by
  show (THREAT_KEYWORDS.filterMap _).countP _ = _
  induction THREAT_KEYWORDS with
  | nil => simp
  | cons e rs ih =>
    by_cases hm : e.1 <:+: lowerL l
    · by_cases hk : e.1 = kw
      · subst hk
        simp [List.filterMap_cons, hm, List.countP_cons, ih]
      · simp [List.filterMap_cons, hm, List.countP_cons, ih, beq_iff_eq, hk]
    · by_cases hk : e.1 = kw
      · subst hk
        simp [List.filterMap_cons, hm, List.countP_cons, ih]
      · simp [List.filterMap_cons, hm, List.countP_cons, ih, beq_iff_eq, hk]

lemma countP_scan_line_full (fname : String) (n m : Nat) (l kw : List Char) :
    (scan_line fname n l).countP (fun it => it.line == m && it.keyword == kw)
      = if n = m then
          (if kw <:+: lowerL l then
            THREAT_KEYWORDS.countP (fun e => e.1 == kw)
          else 0)
        else 0 := by
  by_cases hnm : n = m
  · subst hnm
    rw [if_pos rfl]
    rw [List.countP_congr (q := fun it => it.keyword == kw) ?hcong]
    · exact countP_scan_line_keyword fname n l kw
    case hcong =>
      intro it hit
      have hl := scan_line_line hit
      simp [hl]
  · rw [if_neg hnm]
    apply List.countP_eq_zero.mpr
    intro it hit
    have hl := scan_line_line hit
    simp [hl, beq_iff_eq]
    intro h1
    exact absurd h1.symm (fun hmn => hnm hmn.symm)

lemma scan_lines_line_ge (fname : String) :
    ∀ (ls : List (List Char)) (i : Nat) (it : EvidenceItem),
      it ∈ scan_lines fname i ls → i ≤ it.line := by
  intro ls
  induction ls with
  | nil =>
    intro i it h
    simp [scan_lines] at h
  | cons l rest ih =>
    intro i it h
    rcases List.mem_append.mp (by simpa [scan_lines] using h) with h1 | h2
    · rw [scan_line_line h1]
    · exact Nat.le_trans (Nat.le_succ i) (ih (i + 1) it h2)

lemma countP_scan_lines (fname : String) (kw : List Char) :
    ∀ (ls : List (List Char)) (i L : Nat) (hL : L < ls.length),
      (scan_lines fname i ls).countP (fun it => it.line == (L + i) && it.keyword == kw)
        = if kw <:+: lowerL (ls.get ⟨L, hL⟩) then
            THREAT_KEYWORDS.countP (fun e => e.1 == kw)
          else 0 := by
  intro ls
  induction ls with
  | nil =>
    intro i L hL
    simp at hL
  | cons l rest ih =>
    intro i L hL
    rw [show scan_lines fname i (l :: rest)
        = scan_line fname i l ++ scan_lines fname (i + 1) rest from rfl]
    rw [List.countP_append]
    cases L with
    | zero =>
      simp only [Nat.zero_add]
      rw [countP_scan_line_full fname i i l kw, if_pos rfl]
      have hz : (scan_lines fname (i + 1) rest).countP
          (fun it => it.line == i && it.keyword == kw) = 0 := by
        apply List.countP_eq_zero.mpr
        intro it hit
        have hge := scan_lines_line_ge fname rest (i + 1) it hit
        simp [beq_iff_eq]
        intro h1
        omega
      rw [hz]
      simp
    | succ L' =>
      have h1 : (scan_line fname i l).countP
          (fun it => it.line == (L' + 1 + i) && it.keyword == kw) = 0 := by
        rw [countP_scan_line_full fname i (L' + 1 + i) l kw, if_neg (by omega)]
      rw [h1, Nat.zero_add]
      have h2 := ih (i + 1) L' (by simpa using Nat.lt_of_succ_lt_succ hL)
      simp only [show L' + (i + 1) = L' + 1 + i from by omega] at h2
      exact h2

/-- C4: for every line of an existing artifact and every taxonomy rule,
the scanner emits exactly one `EvidenceItem` for the (line, keyword) pair
when the keyword occurs case-insensitively in the line, and none
otherwise — so a line matched by two distinct keywords yields two items,
with no de-duplication and no precedence. -/
theorem scanner_one_item_per_line_keyword
    (fs : FS) (path : String) (content : List Char)
    (hread : fsRead fs path = some content)
    (L : Nat) (hL : L < (readlines content).length)
    (rule : List Char × String × String) (hrule : rule ∈ THREAT_KEYWORDS) :
    (parse_file_for_threats fs path).countP
        (fun it => it.line == (L + 1) && it.keyword == rule.1)
      = if rule.1 <:+: lowerL ((readlines content).get ⟨L, hL⟩) then 1 else 0 := by
  have hone : THREAT_KEYWORDS.countP (fun e => e.1 == rule.1) = 1 := by
    fin_cases hrule <;> decide
  rw [show parse_file_for_threats fs path
      = scan_lines (basename path) 1 (readlines content) from by
    simp [parse_file_for_threats, hread]]
  rw [countP_scan_lines (basename path) rule.1 (readlines content) 1 L hL, hone]

theorem scanner_one_item_per_line_keyword_witness :
    fsRead fsC4 ("a.txt") = some (("stack overflow\n").toList) ∧
    0 < (readlines (("stack overflow\n").toList)).length ∧
    ruleC4 ∈ THREAT_KEYWORDS ∧
    (parse_file_for_threats fsC4 ("a.txt")).countP
        (fun it => it.line == (0 + 1) && it.keyword == ruleC4.1) = 1 :=
  ⟨by decide, by decide, by decide,
    (scanner_one_item_per_line_keyword fsC4 ("a.txt") (("stack overflow\n").toList)
      (by decide) 0 (by decide) ruleC4 (by decide)).trans (by decide)⟩

/-- C6 counterexample: the scanner runs `strip` on the matched line, so
the persisted `line_text` of the single item for a line reading
`"  error \n"` is `"error"`, not the line as read from the file. -/
theorem scanner_line_text_not_verbatim :
    parse_file_for_threats fsC6 ("log.txt") = [itemC6] ∧
    fsRead fsC6 ("log.txt") = some (("  error \n").toList) ∧
    readlines (("  error \n").toList) = [("  error \n").toList] ∧
    itemC6.line_text ≠ ("  error \n").toList := by decide

lemma scan_lines_mem_spec (fname : String) :
    ∀ (ls : List (List Char)) (i : Nat) (it : EvidenceItem),
      it ∈ scan_lines fname i ls →
      ∃ j l, ls.get? j = some l ∧ it.line = i + j ∧ it.line_text = pystrip l := by
  intro ls
  induction ls with
  | nil =>
    intro i it h
    simp [scan_lines] at h
  | cons l rest ih =>
    intro i it h
    rcases List.mem_append.mp (by simpa [scan_lines] using h) with h1 | h2
    · obtain ⟨e, _, _, rfl⟩ := mem_scan_line.mp h1
      exact ⟨0, l, rfl, by simp, rfl⟩
    · obtain ⟨j, l', hg, hline, htext⟩ := ih (i + 1) it h2
      exact ⟨j + 1, l', by simpa using hg, by omega, htext⟩

/-- C6 amended: for every emitted `EvidenceItem`, the persisted
`line_text` equals the matched artifact line with its leading and
trailing whitespace (including the newline) stripped, Python's
`str.strip` of the line as read from the file. -/
theorem scanner_line_text_is_stripped_line
    (fs : FS) (path : String) (content : List Char)
    (hread : fsRead fs path = some content)
    (it : EvidenceItem) (hit : it ∈ parse_file_for_threats fs path) :
    ∃ l, (readlines content).get? (it.line - 1) = some l ∧ it.line_text = pystrip l := by
  rw [show parse_file_for_threats fs path
      = scan_lines (basename path) 1 (readlines content) from by
    simp [parse_file_for_threats, hread]] at hit
  obtain ⟨j, l, hg, hline, htext⟩ :=
    scan_lines_mem_spec (basename path) (readlines content) 1 it hit
  refine ⟨l, ?_, htext⟩
  rw [show it.line - 1 = j from by omega]
  exact hg

theorem scanner_line_text_is_stripped_line_witness :
    fsRead fsC6 ("log.txt") = some (("  error \n").toList) ∧
    itemC6 ∈ parse_file_for_threats fsC6 ("log.txt") ∧
    (∃ l, (readlines (("  error \n").toList)).get? (itemC6.line - 1) = some l ∧
      itemC6.line_text = pystrip l) :=
  ⟨by decide, by decide,
    scanner_line_text_is_stripped_line fsC6 ("log.txt") (("  error \n").toList)
      (by decide) itemC6 (by decide)⟩

/-- C7: for a file path that does not exist, `parse_file_for_threats`
returns the empty sequence; a missing artifact is nothing to report, not
a failure. -/
theorem scanner_missing_file_empty
    (fs : FS) (path : String) (hmiss : fsRead fs path = none) :
    parse_file_for_threats fs path = [] := by
  simp [parse_file_for_threats, hmiss]

theorem scanner_missing_file_empty_witness :
    fsRead ([] : FS) ("absent.txt") = none ∧
    parse_file_for_threats ([] : FS) ("absent.txt") = [] :=
  ⟨by decide, scanner_missing_file_empty ([] : FS) ("absent.txt") (by decide)⟩

/-- C5: the aggregation run produces the report exactly when at least one
`EvidenceItem` was found across the fuzz-log and static-analysis sources
(the report, when produced, is that merged list), and aggregation over
absent or empty artifact directories returns normally with no report file
— the clean state, not an error. -/
theorem report_absent_iff_no_evidence :
    (∀ fuzzDir staticDir : DirListing,
      (analyze_main fuzzDir staticDir = none ↔
        analyze_fuzz_logs fuzzDir ++ analyze_static_analysis_logs staticDir = []) ∧
      (analyze_main fuzzDir staticDir
          = some (analyze_fuzz_logs fuzzDir ++ analyze_static_analysis_logs staticDir) ∨
        analyze_main fuzzDir staticDir = none)) ∧
    analyze_main none none = none ∧
    analyze_main (some []) (some []) = none := by
  refine ⟨?_, by decide, by decide⟩
  intro fd sd
  constructor
  · by_cases h : analyze_fuzz_logs fd ++ analyze_static_analysis_logs sd = [] <;>
      simp [analyze_main, h]
  · by_cases h : analyze_fuzz_logs fd ++ analyze_static_analysis_logs sd = [] <;>
      simp [analyze_main, h]

/-- C3: under the deadline-checking variant, a fuzz iteration writes the
anomaly log (keyed by the iteration number, with stdout and stderr
preserved verbatim inside it) exactly when the case-folded stdout or
stderr contains the marker "missed deadline"; otherwise only the input
file is written. -/
theorem fuzz_deadline_log_iff_marker (it : Nat) (data out err : List Char) :
    (deadlineMarker <:+: lowerL out ∨ deadlineMarker <:+: lowerL err →
      fuzz_once_writes it data out err
          = [(inputName it, data), (logName it, logContent out err)] ∧
        out <:+: logContent out err ∧ err <:+: logContent out err) ∧
    (¬ (deadlineMarker <:+: lowerL out ∨ deadlineMarker <:+: lowerL err) →
      fuzz_once_writes it data out err = [(inputName it, data)]) := by
  constructor
  · intro h
    refine ⟨by simp [fuzz_once_writes, h], ?_, ?_⟩
    · exact ⟨("=== STDOUT ===\n").toList, ("\n=== STDERR ===\n").toList ++ err,
        by simp [logContent]⟩
    · exact ⟨("=== STDOUT ===\n").toList ++ out ++ ("\n=== STDERR ===\n").toList, [],
        by simp [logContent]⟩
  · intro h
    simp [fuzz_once_writes, h]

theorem fuzz_deadline_log_iff_marker_witness :
    (deadlineMarker <:+: lowerL (("a Missed Deadline! b").toList) ∨
      deadlineMarker <:+: lowerL ([] : List Char)) ∧
    (fuzz_once_writes 3 [] (("a Missed Deadline! b").toList) []
        = [(inputName 3, []),
           (logName 3, logContent (("a Missed Deadline! b").toList) [])] ∧
      ("a Missed Deadline! b").toList <:+: logContent (("a Missed Deadline! b").toList) [] ∧
      ([] : List Char) <:+: logContent (("a Missed Deadline! b").toList) []) :=
  ⟨Or.inl (by decide),
    (fuzz_deadline_log_iff_marker 3 [] (("a Missed Deadline! b").toList) []).1
      (Or.inl (by decide))⟩

/-- C8: running the purge step twice on an absent or already-empty
artifacts directory does not raise (the embedding is total on those
states) and leaves the directory exactly as one run leaves it. -/
theorem purge_idempotent_on_empty_or_absent :
    clear_old_logs (clear_old_logs none) = clear_old_logs none ∧
    clear_old_logs (clear_old_logs (some [])) = clear_old_logs (some []) :=
  ⟨rfl, rfl⟩
